import Mathlib

/-!
Verification of the pdf2cbz tool (`src/pdf2cbz/__main__.py`).

The numeric parts of the program (page widths/heights, quantiles, averages)
are embedded over `ℚ`, modelling Python's arithmetic on the sampled values.
Fallible steps (Python exceptions such as `ZeroDivisionError`) are embedded
with `Option`.  Filenames are embedded as `List Char` and Python's string
ordering as a lexicographic comparison on those lists.
-/

namespace Pdf2Cbz

/-- One cut point of the exclusive-method 4-quantile estimator of Python's
`statistics.quantiles(data, n=4)` (CPython `statistics.py`): for cut point
`i ∈ {1,2,3}`, with `ld = len(data)` and `m = ld + 1`, it computes
`j = i*m // 4` clamped into `[1, ld-1]`, `delta = i*m - j*4` and
interpolates `(data[j-1]*(4-delta) + data[j]*delta) / 4`.  The argument is
assumed sorted (the program passes an already-sorted list). -/
def quantile4 (data : List ℚ) (i : ℕ) : ℚ :=
  let ld := data.length
  let m := ld + 1
  let j0 := i * m / 4
  let j := if j0 < 1 then 1 else if j0 > ld - 1 then ld - 1 else j0
  let delta : ℤ := (i * m : ℤ) - (j : ℤ) * 4
  (data.getD (j - 1) 0 * ((4 : ℚ) - (delta : ℚ)) + data.getD j 0 * (delta : ℚ)) / 4

/-- `sorted_data = sorted(data)` in `_filter_outliers`. -/
def sortedData (data : List ℚ) : List ℚ :=
  List.insertionSort (· ≤ ·) data

/-- `q1 = statistics.quantiles(sorted_data, n=4)[0]`. -/
def q1 (data : List ℚ) : ℚ := quantile4 (sortedData data) 1

/-- `q3 = statistics.quantiles(sorted_data, n=4)[2]`. -/
def q3 (data : List ℚ) : ℚ := quantile4 (sortedData data) 3

/-- `iqr = q3 - q1`. -/
def iqr (data : List ℚ) : ℚ := q3 data - q1 data

/-- `lower_bound = q1 - 1.5 * iqr`. -/
def lower_bound (data : List ℚ) : ℚ := q1 data - 3 / 2 * iqr data

/-- `upper_bound = q3 + 1.5 * iqr`. -/
def upper_bound (data : List ℚ) : ℚ := q3 data + 3 / 2 * iqr data

/-- `_filter_outliers` (`__main__.py` lines 141-154): below 4 data points the
sample is returned unchanged; otherwise the IQR bounds are computed from the
sorted sample and `[x for x in data if lower_bound <= x <= upper_bound]`
is returned. -/
def filter_outliers (data : List ℚ) : List ℚ :=
  if data.length < 4 then data
  else data.filter fun x => decide (lower_bound data ≤ x ∧ x ≤ upper_bound data)

/-- `sum(xs) / len(xs)` on a list of rationals; `none` models Python's
`ZeroDivisionError` on an empty list (there is no guard in the source). -/
def average (xs : List ℚ) : Option ℚ :=
  if xs.length = 0 then none else some (xs.sum / (xs.length : ℚ))

/-- The numeric part of the `inspect` command (`__main__.py` lines 95-110):
each page contributes a `(width, height)` pair; when `page_count >= 10`
the outlier filter is applied independently to the width list and the
height list, otherwise the raw lists are used; then each list is averaged.
The result is `(avg_width, avg_height)`, or `none` if an average divides
by zero. -/
def inspect_averages (pages : List (ℚ × ℚ)) : Option (ℚ × ℚ) :=
  let page_count := pages.length
  let widths := pages.map Prod.fst
  let heights := pages.map Prod.snd
  let widths_filtered := if 10 ≤ page_count then filter_outliers widths else widths
  let heights_filtered := if 10 ≤ page_count then filter_outliers heights else heights
  match average widths_filtered, average heights_filtered with
  | some avg_width, some avg_height => some (avg_width, avg_height)
  | _, _ => none

/-- The decimal digit characters of `n`, most significant first: the model of
Python's `str(n)` for a natural number. -/
def natChars (n : ℕ) : List Char :=
  if _h : n < 10 then [Nat.digitChar n]
  else natChars (n / 10) ++ [Nat.digitChar (n % 10)]
decreasing_by exact Nat.div_lt_self (by omega) (by omega)

/-- Python's format specifier `{n:03d}`: the decimal digits of `n`,
left-padded with `'0'` to at least 3 characters. -/
def fmt03d (n : ℕ) : List Char :=
  List.replicate (3 - (natChars n).length) '0' ++ natChars n

/-- The basename `f"{page_num + 1:03d}.jpg"` used for the saved page image,
as a character list (`__main__.py` line 53). -/
def jpgName (n : ℕ) : List Char :=
  fmt03d n ++ ['.', 'j', 'p', 'g']

/-- Python string comparison `a < b` (lexicographic on characters),
used to model `sorted(...)` over the filenames in the temp directory. -/
def nameLt : List Char → List Char → Bool
  | [], [] => false
  | [], _ :: _ => true
  | _ :: _, [] => false
  | a :: as, b :: bs =>
    if a < b then true else if b < a then false else nameLt as bs

/-- Python's `sorted` on a list of filenames: ascending with respect to the
string order (`a` may precede `b` whenever `not (b < a)`). -/
def pySorted (l : List (List Char)) : List (List Char) :=
  List.insertionSort (fun a b => nameLt b a = false) l

/-- `num_pages = len(doc) if limit is None else min(limit, len(doc))`
(`__main__.py` line 39). -/
def num_pages (page_total : ℕ) : Option ℕ → ℕ
  | none => page_total
  | some limit => min limit page_total

/-- A PDF page: its rectangle's width and height in points
(`page.rect` in the source). -/
structure Page where
  width : ℚ
  height : ℚ

/-- One image file produced by the convert loop: its basename, the 0-based
index of the page it was rendered from, and the scale it was rendered at. -/
structure SavedImage where
  name : List Char
  page_num : ℕ
  scale : ℚ

/-- `scale = 1.0 if height_px is None else height_px / rect.height`
(`__main__.py` line 49). -/
def page_scale (height_px : Option ℚ) (rect_height : ℚ) : ℚ :=
  match height_px with
  | none => 1
  | some h => h / rect_height

/-- The sequence of page images written by the convert loop
(`__main__.py` lines 47-53): for each `page_num` in
`range(num_pages)`, the page is rendered at `page_scale` and saved as
`f"{page_num + 1:03d}.jpg"`. -/
def convert_written (doc : List Page) (height_px : Option ℚ) (limit : Option ℕ) :
    List SavedImage :=
  (List.range (num_pages doc.length limit)).map fun page_num =>
    { name := jpgName (page_num + 1)
      page_num := page_num
      scale := page_scale height_px (doc.getD page_num ⟨0, 0⟩).height }

/-- The `*.jpg` basenames present in the (freshly created) temp directory
after the convert loop: exactly the files the loop wrote. -/
def tmp_files (page_total : ℕ) (limit : Option ℕ) : List (List Char) :=
  (List.range (num_pages page_total limit)).map fun page_num => jpgName (page_num + 1)

/-- The entry names of the ZIP archive, in order
(`__main__.py` lines 64-68): `files = sorted(tmp_path.glob("*.jpg"))`,
each written with `arcname=file.name`. -/
def zip_entries (page_total : ℕ) (limit : Option ℕ) : List (List Char) :=
  pySorted (tmp_files page_total limit)

/-- Filesystem state relevant to the convert command: whether the temp
directory exists, the basenames inside it, and the basenames in the data
directory (where the PDF, the ZIP and the CBZ live). -/
structure FS where
  tmp_dir_exists : Bool
  tmp_dir : List (List Char)
  data_dir : List (List Char)

/-- State after the page loop, starting from an absent temp directory:
the directory was created and holds exactly the written page images
(`__main__.py` lines 35-53). -/
def write_pages_fs (data_dir0 : List (List Char)) (page_total : ℕ)
    (limit : Option ℕ) : FS :=
  { tmp_dir_exists := true
    tmp_dir := tmp_files page_total limit
    data_dir := data_dir0 }

/-- Writing the archive `<stem>.zip` into the data directory
(`__main__.py` lines 57-68). -/
def write_zip_fs (fs : FS) (stem : List Char) : FS :=
  { fs with data_dir := fs.data_dir ++ [stem ++ ['.', 'z', 'i', 'p']] }

/-- `os.rename(zip_path, cbz_path)` (`__main__.py` lines 71-72): the entry
named `<stem>.zip` becomes `<stem>.cbz`. -/
def rename_zip_to_cbz_fs (fs : FS) (stem : List Char) : FS :=
  { fs with data_dir := fs.data_dir.map fun f =>
      if f = stem ++ ['.', 'z', 'i', 'p'] then stem ++ ['.', 'c', 'b', 'z'] else f }

/-- Deleting every file in the temp directory and removing the directory
(`__main__.py` lines 75-77). -/
def cleanup_tmp_fs (fs : FS) : FS :=
  { fs with tmp_dir := [], tmp_dir_exists := false }

/-- The filesystem effect of a complete, normal run of the convert command
on a PDF named `<stem>.pdf`, starting with no temp directory. -/
def convert_fs (data_dir0 : List (List Char)) (stem : List Char)
    (page_total : ℕ) (limit : Option ℕ) : FS :=
  cleanup_tmp_fs
    (rename_zip_to_cbz_fs
      (write_zip_fs (write_pages_fs data_dir0 page_total limit) stem) stem)

/-! ### Basic facts about the sorted copy of the sample -/

lemma sortedData_sorted (data : List ℚ) : (sortedData data).Sorted (· ≤ ·) :=
  List.sorted_insertionSort _ data

lemma sortedData_perm (data : List ℚ) : List.Perm (sortedData data) data :=
  List.perm_insertionSort _ data

lemma sortedData_length (data : List ℚ) : (sortedData data).length = data.length :=
  List.length_insertionSort _ data

/-! ### The quantile estimator stays between two adjacent data points -/

/-- A convex interpolation `(a*(4-d) + b*d)/4` with weight `d ∈ [0, 4]`
lies between `a` and `b`. -/
lemma interp_between {a b : ℚ} (hab : a ≤ b) {d : ℤ} (hd0 : 0 ≤ d) (hd4 : d ≤ 4) :
    a ≤ (a * (4 - (d : ℚ)) + b * (d : ℚ)) / 4 ∧
      (a * (4 - (d : ℚ)) + b * (d : ℚ)) / 4 ≤ b := by
  have hd0' : (0 : ℚ) ≤ (d : ℚ) := by exact_mod_cast hd0
  have hd4' : ((d : ℚ)) ≤ 4 := by exact_mod_cast hd4
  constructor
  · rw [le_div_iff₀ (by norm_num : (0 : ℚ) < 4)]
    nlinarith [mul_nonneg (sub_nonneg.mpr hab) hd0']
  · rw [div_le_iff₀ (by norm_num : (0 : ℚ) < 4)]
    nlinarith [mul_nonneg (sub_nonneg.mpr hab) (sub_nonneg.mpr hd4')]

/-- When the clamp of the cut index `j = i*(ld+1) // 4` into `[1, ld-1]` is a
no-op, the interpolated quantile lies between `data[j-1]` and `data[j]`. -/
lemma quantile4_between (s : List ℚ) (hs : s.Sorted (· ≤ ·)) (i : ℕ)
    (h1 : 1 ≤ i * (s.length + 1) / 4) (h2 : i * (s.length + 1) / 4 ≤ s.length - 1)
    (hlen : 1 ≤ s.length) :
    s.getD (i * (s.length + 1) / 4 - 1) 0 ≤ quantile4 s i ∧
      quantile4 s i ≤ s.getD (i * (s.length + 1) / 4) 0 := by
  simp only [quantile4]
  rw [if_neg (by omega), if_neg (by omega)]
  have hab : s.getD (i * (s.length + 1) / 4 - 1) 0 ≤ s.getD (i * (s.length + 1) / 4) 0 := by
    rw [List.getD_eq_getElem _ _ (by omega), List.getD_eq_getElem _ _ (by omega)]
    have := hs.rel_get_of_lt (a := ⟨i * (s.length + 1) / 4 - 1, by omega⟩)
      (b := ⟨i * (s.length + 1) / 4, by omega⟩) (Fin.mk_lt_mk.mpr (by omega))
    simpa using this
  exact interp_between hab (by push_cast; omega) (by push_cast; omega)

/-- For a sample of at least 4 points, some sample value lies in `[Q1, Q3]`. -/
lemma exists_mem_q1_q3 (data : List ℚ) (h4 : 4 ≤ data.length) :
    ∃ x, x ∈ data ∧ q1 data ≤ x ∧ x ≤ q3 data := by
  set s := sortedData data with hs_def
  have hsorted : s.Sorted (· ≤ ·) := sortedData_sorted data
  have hlen : s.length = data.length := sortedData_length data
  have h4s : 4 ≤ s.length := by omega
  have hq1 := quantile4_between s hsorted 1 (by omega) (by omega) (by omega)
  have hq3 := quantile4_between s hsorted 3 (by omega) (by omega) (by omega)
  have hq1_eq : q1 data = quantile4 s 1 := by rw [q1, ← hs_def]
  have hq3_eq : q3 data = quantile4 s 3 := by rw [q3, ← hs_def]
  set j1 := 1 * (s.length + 1) / 4 with hj1_def
  set j3 := 3 * (s.length + 1) / 4 with hj3_def
  have hj13 : j1 ≤ j3 - 1 := by omega
  refine ⟨s.getD j1 0, ?_, ?_, ?_⟩
  · have hmem : s.getD j1 0 ∈ s := by
      rw [List.getD_eq_getElem _ _ (by omega)]
      exact List.getElem_mem _
    exact (sortedData_perm data).mem_iff.mp (by rw [hs_def] at hmem; exact hmem)
  · rw [hq1_eq]; exact hq1.2
  · rw [hq3_eq]
    have hmono : s.getD j1 0 ≤ s.getD (j3 - 1) 0 := by
      rcases eq_or_lt_of_le hj13 with heq | hlt
      · rw [heq]
      · rw [List.getD_eq_getElem _ _ (by omega), List.getD_eq_getElem _ _ (by omega)]
        have := hsorted.rel_get_of_lt (a := ⟨j1, by omega⟩) (b := ⟨j3 - 1, by omega⟩)
          (Fin.mk_lt_mk.mpr hlt)
        simpa using this
    exact hmono.trans hq3.1

lemma q1_le_q3 (data : List ℚ) (h4 : 4 ≤ data.length) : q1 data ≤ q3 data := by
  obtain ⟨x, -, h1, h3⟩ := exists_mem_q1_q3 data h4
  exact h1.trans h3

lemma lower_bound_le_q1 (data : List ℚ) (h4 : 4 ≤ data.length) :
    lower_bound data ≤ q1 data := by
  have := q1_le_q3 data h4
  rw [lower_bound, iqr]; linarith

lemma q3_le_upper_bound (data : List ℚ) (h4 : 4 ≤ data.length) :
    q3 data ≤ upper_bound data := by
  have := q1_le_q3 data h4
  rw [upper_bound, iqr]; linarith

/-- On a sample of at least 4 points the outlier filter keeps at least one
value, since some sample value lies in `[Q1, Q3] ⊆ [lower, upper]`. -/
lemma filter_outliers_ne_nil (data : List ℚ) (h4 : 4 ≤ data.length) :
    filter_outliers data ≠ [] := by
  obtain ⟨x, hx, h1, h3⟩ := exists_mem_q1_q3 data h4
  have hxin : x ∈ filter_outliers data := by
    rw [filter_outliers, if_neg (by omega)]
    refine List.mem_filter.mpr ⟨hx, ?_⟩
    simp only [decide_eq_true_eq]
    exact ⟨(lower_bound_le_q1 data h4).trans h1, h3.trans (q3_le_upper_bound data h4)⟩
  exact List.ne_nil_of_mem hxin

/-! ### Claims about the outlier filter -/

/-- C1: on a sample of length ≥ 4, the filter computes `IQR = Q3 - Q1`,
bounds `lower = Q1 - 1.5*IQR`, `upper = Q3 + 1.5*IQR` from the sorted
sample's 4-quantiles, and returns exactly the values of the original sample
with `lower ≤ v ≤ upper`, in original order (a sublist of the input,
membership is the inclusive-bound predicate). -/
theorem filter_outliers_spec (data : List ℚ) (v : ℚ) (h : 4 ≤ data.length) :
    iqr data = q3 data - q1 data ∧
    lower_bound data = q1 data - 3 / 2 * iqr data ∧
    upper_bound data = q3 data + 3 / 2 * iqr data ∧
    filter_outliers data =
      data.filter (fun x => decide (lower_bound data ≤ x ∧ x ≤ upper_bound data)) ∧
    (filter_outliers data).Sublist data ∧
    (v ∈ filter_outliers data ↔
      v ∈ data ∧ lower_bound data ≤ v ∧ v ≤ upper_bound data) := by
  have hne : ¬ data.length < 4 := by omega
  refine ⟨rfl, rfl, rfl, ?_, ?_, ?_⟩
  · rw [filter_outliers, if_neg hne]
  · rw [filter_outliers, if_neg hne]; exact data.filter_sublist
  · rw [filter_outliers, if_neg hne, List.mem_filter]
    simp [and_assoc]

theorem filter_outliers_spec_witness :
    (4 ≤ ([1, 2, 3, 4] : List ℚ).length) ∧
    (iqr [1, 2, 3, 4] = q3 [1, 2, 3, 4] - q1 [1, 2, 3, 4] ∧
    lower_bound [1, 2, 3, 4] = q1 [1, 2, 3, 4] - 3 / 2 * iqr [1, 2, 3, 4] ∧
    upper_bound [1, 2, 3, 4] = q3 [1, 2, 3, 4] + 3 / 2 * iqr [1, 2, 3, 4] ∧
    filter_outliers [1, 2, 3, 4] =
      List.filter (fun x => decide (lower_bound [1, 2, 3, 4] ≤ x ∧
        x ≤ upper_bound [1, 2, 3, 4])) [1, 2, 3, 4] ∧
    (filter_outliers [1, 2, 3, 4]).Sublist [1, 2, 3, 4] ∧
    ((1 : ℚ) ∈ filter_outliers [1, 2, 3, 4] ↔
      (1 : ℚ) ∈ ([1, 2, 3, 4] : List ℚ) ∧ lower_bound [1, 2, 3, 4] ≤ 1 ∧
        (1 : ℚ) ≤ upper_bound [1, 2, 3, 4])) :=
  ⟨by decide, filter_outliers_spec [1, 2, 3, 4] 1 (by decide)⟩

/-- C2: on a sample of fewer than 4 values, the outlier filter is the
identity: it returns the input list itself. -/
theorem filter_outliers_short_identity (data : List ℚ) (h : data.length < 4) :
    filter_outliers data = data := by
  rw [filter_outliers, if_pos h]

theorem filter_outliers_short_identity_witness :
    ([1, 2, 3] : List ℚ).length < 4 ∧ filter_outliers [1, 2, 3] = [1, 2, 3] :=
  ⟨by decide, filter_outliers_short_identity [1, 2, 3] (by decide)⟩

/-- C4: on a sample in which every value already satisfies the computed
bounds, the outlier filter is the identity (any length). -/
theorem filter_outliers_no_outlier_identity (data : List ℚ)
    (h : ∀ v ∈ data, lower_bound data ≤ v ∧ v ≤ upper_bound data) :
    filter_outliers data = data := by
  rw [filter_outliers]
  split
  · rfl
  · exact List.filter_eq_self.mpr fun a ha => decide_eq_true (h a ha)

theorem filter_outliers_no_outlier_identity_witness :
    (∀ v ∈ ([5, 5, 5, 5] : List ℚ),
      lower_bound [5, 5, 5, 5] ≤ v ∧ v ≤ upper_bound [5, 5, 5, 5]) ∧
    filter_outliers [5, 5, 5, 5] = [5, 5, 5, 5] := by
  have h : ∀ v ∈ ([5, 5, 5, 5] : List ℚ),
      lower_bound [5, 5, 5, 5] ≤ v ∧ v ≤ upper_bound [5, 5, 5, 5] := by
    norm_num [lower_bound, upper_bound, iqr, q1, q3, quantile4, sortedData,
      List.insertionSort, List.orderedInsert]
  exact ⟨h, filter_outliers_no_outlier_identity [5, 5, 5, 5] h⟩

/-! ### Claims about the inspect averages -/

lemma average_of_ne_nil (xs : List ℚ) (h : xs ≠ []) :
    average xs = some (xs.sum / (xs.length : ℚ)) := by
  rw [average, if_neg]
  simpa using h

/-- C3: inspect filters the width list and the height list independently
exactly when the page count is at least 10, and each reported average is the
sum of the (possibly filtered) list divided by its length. -/
theorem inspect_threshold (pages : List (ℚ × ℚ)) :
    (10 ≤ pages.length →
      inspect_averages pages =
        some ((filter_outliers (pages.map Prod.fst)).sum /
                ((filter_outliers (pages.map Prod.fst)).length : ℚ),
              (filter_outliers (pages.map Prod.snd)).sum /
                ((filter_outliers (pages.map Prod.snd)).length : ℚ))) ∧
    (pages.length < 10 → pages ≠ [] →
      inspect_averages pages =
        some ((pages.map Prod.fst).sum / ((pages.map Prod.fst).length : ℚ),
              (pages.map Prod.snd).sum / ((pages.map Prod.snd).length : ℚ))) := by
  constructor
  · intro h10
    have hw : filter_outliers (pages.map Prod.fst) ≠ [] :=
      filter_outliers_ne_nil _ (by rw [List.length_map]; omega)
    have hh : filter_outliers (pages.map Prod.snd) ≠ [] :=
      filter_outliers_ne_nil _ (by rw [List.length_map]; omega)
    simp only [inspect_averages, if_pos h10]
    rw [average_of_ne_nil _ hw, average_of_ne_nil _ hh]
  · intro h10 hne
    have hw : pages.map Prod.fst ≠ [] := by simpa using hne
    have hh : pages.map Prod.snd ≠ [] := by simpa using hne
    simp only [inspect_averages]
    rw [if_neg (by omega : ¬ 10 ≤ pages.length),
      if_neg (by omega : ¬ 10 ≤ pages.length),
      average_of_ne_nil _ hw, average_of_ne_nil _ hh]

theorem inspect_threshold_witness :
    (10 ≤ (List.replicate 10 ((10 : ℚ), (20 : ℚ))).length ∧
      inspect_averages (List.replicate 10 ((10 : ℚ), (20 : ℚ))) =
        some ((filter_outliers ((List.replicate 10 ((10 : ℚ), (20 : ℚ))).map Prod.fst)).sum /
                ((filter_outliers ((List.replicate 10 ((10 : ℚ), (20 : ℚ))).map Prod.fst)).length : ℚ),
              (filter_outliers ((List.replicate 10 ((10 : ℚ), (20 : ℚ))).map Prod.snd)).sum /
                ((filter_outliers ((List.replicate 10 ((10 : ℚ), (20 : ℚ))).map Prod.snd)).length : ℚ))) ∧
    (([((1 : ℚ), (2 : ℚ)), ((3 : ℚ), (4 : ℚ))] : List (ℚ × ℚ)).length < 10 ∧
      ([((1 : ℚ), (2 : ℚ)), ((3 : ℚ), (4 : ℚ))] : List (ℚ × ℚ)) ≠ [] ∧
      inspect_averages [((1 : ℚ), (2 : ℚ)), ((3 : ℚ), (4 : ℚ))] =
        some ((([((1 : ℚ), (2 : ℚ)), ((3 : ℚ), (4 : ℚ))] : List (ℚ × ℚ)).map Prod.fst).sum /
                ((([((1 : ℚ), (2 : ℚ)), ((3 : ℚ), (4 : ℚ))] : List (ℚ × ℚ)).map Prod.fst).length : ℚ),
              (([((1 : ℚ), (2 : ℚ)), ((3 : ℚ), (4 : ℚ))] : List (ℚ × ℚ)).map Prod.snd).sum /
                ((([((1 : ℚ), (2 : ℚ)), ((3 : ℚ), (4 : ℚ))] : List (ℚ × ℚ)).map Prod.snd).length : ℚ))) :=
  ⟨⟨by decide, (inspect_threshold (List.replicate 10 ((10 : ℚ), (20 : ℚ)))).1 (by decide)⟩,
    by decide, by decide,
    (inspect_threshold [((1 : ℚ), (2 : ℚ)), ((3 : ℚ), (4 : ℚ))]).2 (by decide) (by decide)⟩

/-- C5: the averaging step of inspect has no guard: whenever the width list
selected for averaging (the filtered list when the filter was applied, the
raw list otherwise) is empty, the average divides by zero and the command
fails (`none` models the unhandled `ZeroDivisionError`). -/
theorem inspect_empty_filtered_fatal (pages : List (ℚ × ℚ))
    (h : (if 10 ≤ pages.length then filter_outliers (pages.map Prod.fst)
          else pages.map Prod.fst) = []) :
    inspect_averages pages = none := by
  simp only [inspect_averages]
  rw [h]
  rfl

theorem inspect_empty_filtered_fatal_witness :
    ((if 10 ≤ ([] : List (ℚ × ℚ)).length
        then filter_outliers (([] : List (ℚ × ℚ)).map Prod.fst)
        else ([] : List (ℚ × ℚ)).map Prod.fst) = []) ∧
      inspect_averages [] = none :=
  ⟨by decide, inspect_empty_filtered_fatal [] (by decide)⟩

/-- C6: for a sample of at least 4 values the bounds nest around the
quartiles (`lower ≤ Q1 ≤ Q3 ≤ upper`), the filter output is never empty,
and therefore inspect's division by the filtered list's length cannot be a
division by zero when the filter was applied (page count ≥ 10). -/
theorem filter_outliers_safe (data : List ℚ) (pages : List (ℚ × ℚ))
    (h4 : 4 ≤ data.length) (h10 : 10 ≤ pages.length) :
    lower_bound data ≤ q1 data ∧ q1 data ≤ q3 data ∧ q3 data ≤ upper_bound data ∧
      filter_outliers data ≠ [] ∧ inspect_averages pages ≠ none := by
  refine ⟨lower_bound_le_q1 data h4, q1_le_q3 data h4, q3_le_upper_bound data h4,
    filter_outliers_ne_nil data h4, ?_⟩
  have hw : filter_outliers (pages.map Prod.fst) ≠ [] :=
    filter_outliers_ne_nil _ (by rw [List.length_map]; omega)
  have hh : filter_outliers (pages.map Prod.snd) ≠ [] :=
    filter_outliers_ne_nil _ (by rw [List.length_map]; omega)
  simp only [inspect_averages, if_pos h10]
  rw [average_of_ne_nil _ hw, average_of_ne_nil _ hh]
  simp

theorem filter_outliers_safe_witness :
    (4 ≤ ([1, 2, 3, 4] : List ℚ).length) ∧
    (10 ≤ (List.replicate 10 ((10 : ℚ), (20 : ℚ))).length) ∧
    (lower_bound [1, 2, 3, 4] ≤ q1 [1, 2, 3, 4] ∧
      q1 [1, 2, 3, 4] ≤ q3 [1, 2, 3, 4] ∧
      q3 [1, 2, 3, 4] ≤ upper_bound [1, 2, 3, 4] ∧
      filter_outliers [1, 2, 3, 4] ≠ [] ∧
      inspect_averages (List.replicate 10 ((10 : ℚ), (20 : ℚ))) ≠ none) :=
  ⟨by decide, by decide,
    filter_outliers_safe [1, 2, 3, 4] (List.replicate 10 ((10 : ℚ), (20 : ℚ)))
      (by decide) (by decide)⟩

/-- C10: a concrete sample of 9 values, eight clustered in `[9, 14]` and one
extreme value `1000`: the filter drops exactly the extreme value and keeps
the others in their original relative order. -/
theorem single_outlier_excluded :
    filter_outliers [10, 11, 12, 13, 1000, 14, 9, 10, 12] =
      [10, 11, 12, 13, 14, 9, 10, 12] := by
  norm_num [filter_outliers, lower_bound, upper_bound, iqr, q1, q3, quantile4, sortedData,
    List.insertionSort, List.orderedInsert, List.filter]

/-! ### Filenames: digits, formatting, ordering -/

lemma digitChar_mono :
    ∀ a, a < 10 → ∀ b, b < 10 → a < b → Nat.digitChar a < Nat.digitChar b := by decide

lemma natChars_of_lt10 (n : ℕ) (h : n < 10) : natChars n = [Nat.digitChar n] := by
  rw [natChars, dif_pos h]

lemma natChars_of_lt100 (n : ℕ) (h1 : 10 ≤ n) (h2 : n < 100) :
    natChars n = [Nat.digitChar (n / 10), Nat.digitChar (n % 10)] := by
  rw [natChars, dif_neg (by omega), natChars_of_lt10 (n / 10) (by omega)]
  rfl

lemma natChars_of_lt1000 (n : ℕ) (h1 : 100 ≤ n) (h2 : n < 1000) :
    natChars n =
      [Nat.digitChar (n / 100), Nat.digitChar (n / 10 % 10), Nat.digitChar (n % 10)] := by
  have h3 : n / 10 / 10 = n / 100 := by omega
  rw [natChars, dif_neg (by omega), natChars_of_lt100 (n / 10) (by omega) (by omega), h3]
  rfl

/-- For `n ≤ 999` the formatted name is exactly the three decimal digits of
`n`, zero-padded. -/
lemma fmt03d_eq (n : ℕ) (h : n < 1000) :
    fmt03d n =
      [Nat.digitChar (n / 100), Nat.digitChar (n / 10 % 10), Nat.digitChar (n % 10)] := by
  rcases Nat.lt_or_ge n 10 with h10 | h10
  · rw [fmt03d, natChars_of_lt10 n h10]
    have e1 : n / 100 = 0 := by omega
    have e2 : n / 10 % 10 = 0 := by omega
    have e3 : n % 10 = n := by omega
    rw [e1, e2, e3]
    rfl
  · rcases Nat.lt_or_ge n 100 with h100 | h100
    · rw [fmt03d, natChars_of_lt100 n h10 h100]
      have e1 : n / 100 = 0 := by omega
      have e2 : n / 10 % 10 = n / 10 := by omega
      rw [e1, e2]
      rfl
    · rw [fmt03d, natChars_of_lt1000 n h100 h]
      rfl

lemma nameLt_cons (a b : Char) (as bs : List Char) :
    nameLt (a :: as) (b :: bs) =
      if a < b then true else if b < a then false else nameLt as bs := rfl

/-- Page numbers up to 999 yield strictly increasing filenames in the
string order. -/
lemma jpgName_lt (n m : ℕ) (hnm : n < m) (hm : m ≤ 999) :
    nameLt (jpgName n) (jpgName m) = true := by
  have hn1000 : n < 1000 := by omega
  have hm1000 : m < 1000 := by omega
  rw [jpgName, jpgName, fmt03d_eq n hn1000, fmt03d_eq m hm1000]
  simp only [List.cons_append, List.nil_append, nameLt_cons]
  rcases Nat.lt_trichotomy (n / 100) (m / 100) with h1 | h1 | h1
  · rw [if_pos (digitChar_mono _ (by omega) _ (by omega) h1)]
  · rw [h1, if_neg (lt_irrefl _), if_neg (lt_irrefl _)]
    rcases Nat.lt_trichotomy (n / 10 % 10) (m / 10 % 10) with h2 | h2 | h2
    · rw [if_pos (digitChar_mono _ (by omega) _ (by omega) h2)]
    · rw [h2, if_neg (lt_irrefl _), if_neg (lt_irrefl _)]
      have h3 : n % 10 < m % 10 := by omega
      rw [if_pos (digitChar_mono _ (by omega) _ (by omega) h3)]
    · omega
  · omega

lemma nameLt_asymm : ∀ (a b : List Char), nameLt a b = true → nameLt b a = false
  | [], [] => by simp [nameLt]
  | [], _ :: _ => fun _ => rfl
  | _ :: _, [] => by simp [nameLt]
  | a :: as, b :: bs => by
    rw [nameLt_cons, nameLt_cons]
    rcases lt_trichotomy a b with h | h | h
    · intro _
      rw [if_neg (asymm h), if_pos h]
    · subst h
      intro hyp
      rw [if_neg (lt_irrefl a), if_neg (lt_irrefl a)] at hyp ⊢
      exact nameLt_asymm as bs hyp
    · intro hyp
      rw [if_neg (asymm h), if_pos h] at hyp
      exact absurd hyp (by simp)

/-- The filenames written by the loop are already sorted for the string
order when at most 999 pages are processed. -/
lemma tmp_files_sorted (page_total : ℕ) (limit : Option ℕ)
    (h999 : num_pages page_total limit ≤ 999) :
    List.Sorted (fun a b => nameLt b a = false) (tmp_files page_total limit) := by
  rw [List.Sorted, tmp_files, List.pairwise_map, List.pairwise_iff_getElem]
  intro i j hi hj hij
  simp only [List.length_range] at hi hj
  simp only [List.getElem_range]
  exact nameLt_asymm _ _ (jpgName_lt (i + 1) (j + 1) (by omega) (by omega))

/-! ### Claims about the convert command -/

/-- C7: the convert loop processes exactly `min(limit, pageCount)` pages
(all pages when no limit is given), iterating page indices in order, and
saves page `k` (0-based) as the JPEG named by the 1-based page number
zero-padded to 3 digits: `001.jpg`, `002.jpg`, ... -/
theorem convert_pages_naming (doc : List Page) (height_px : Option ℚ) (L k : ℕ)
    (hk : k < min L doc.length) :
    (convert_written doc height_px (some L)).length = min L doc.length ∧
    (convert_written doc height_px none).length = doc.length ∧
    ((convert_written doc height_px (some L)).getD k ⟨[], 0, 0⟩).page_num = k ∧
    ((convert_written doc height_px (some L)).getD k ⟨[], 0, 0⟩).name = jpgName (k + 1) ∧
    jpgName 1 = ['0', '0', '1', '.', 'j', 'p', 'g'] ∧
    jpgName 2 = ['0', '0', '2', '.', 'j', 'p', 'g'] := by
  have hlen : (convert_written doc height_px (some L)).length = min L doc.length := by
    rw [convert_written, List.length_map, List.length_range]
    rfl
  refine ⟨hlen, ?_, ?_, ?_, ?_, ?_⟩
  · rw [convert_written, List.length_map, List.length_range]
    rfl
  · rw [List.getD_eq_getElem _ _ (by rw [hlen]; exact hk)]
    simp [convert_written, num_pages]
  · rw [List.getD_eq_getElem _ _ (by rw [hlen]; exact hk)]
    simp [convert_written, num_pages]
  · rw [jpgName, fmt03d_eq 1 (by omega)]
    rfl
  · rw [jpgName, fmt03d_eq 2 (by omega)]
    rfl

theorem convert_pages_naming_witness :
    (0 < min 1 ([⟨10, 20⟩, ⟨10, 20⟩] : List Page).length) ∧
    ((convert_written [⟨10, 20⟩, ⟨10, 20⟩] none (some 1)).length =
      min 1 ([⟨10, 20⟩, ⟨10, 20⟩] : List Page).length ∧
    (convert_written [⟨10, 20⟩, ⟨10, 20⟩] none none).length =
      ([⟨10, 20⟩, ⟨10, 20⟩] : List Page).length ∧
    ((convert_written [⟨10, 20⟩, ⟨10, 20⟩] none (some 1)).getD 0 ⟨[], 0, 0⟩).page_num = 0 ∧
    ((convert_written [⟨10, 20⟩, ⟨10, 20⟩] none (some 1)).getD 0 ⟨[], 0, 0⟩).name =
      jpgName (0 + 1) ∧
    jpgName 1 = ['0', '0', '1', '.', 'j', 'p', 'g'] ∧
    jpgName 2 = ['0', '0', '2', '.', 'j', 'p', 'g']) :=
  ⟨by decide, convert_pages_naming [⟨10, 20⟩, ⟨10, 20⟩] none 1 0 (by decide)⟩

/-- C8: the archive holds exactly one entry per processed page; the entries
are the basenames found in the temp directory sorted by name, and for at
most 999 pages that sorted order is exactly page order. -/
theorem convert_zip_entries (page_total : ℕ) (limit : Option ℕ) (k : ℕ)
    (h999 : num_pages page_total limit ≤ 999) (hk : k < num_pages page_total limit) :
    zip_entries page_total limit = tmp_files page_total limit ∧
    (zip_entries page_total limit).length = num_pages page_total limit ∧
    (zip_entries page_total limit).getD k [] = jpgName (k + 1) := by
  have heq : zip_entries page_total limit = tmp_files page_total limit := by
    rw [zip_entries, pySorted]
    exact (tmp_files_sorted page_total limit h999).insertionSort_eq
  refine ⟨heq, ?_, ?_⟩
  · rw [heq, tmp_files, List.length_map, List.length_range]
  · rw [heq, tmp_files,
      List.getD_eq_getElem _ _ (by rw [List.length_map, List.length_range]; exact hk)]
    simp

theorem convert_zip_entries_witness :
    (num_pages 2 none ≤ 999 ∧ 0 < num_pages 2 none) ∧
    (zip_entries 2 none = tmp_files 2 none ∧
      (zip_entries 2 none).length = num_pages 2 none ∧
      (zip_entries 2 none).getD 0 [] = jpgName (0 + 1)) :=
  ⟨⟨by decide, by decide⟩, convert_zip_entries 2 none 0 (by decide) (by decide)⟩

/-- C9: after the archive is written, convert renames `<stem>.zip` to
`<stem>.cbz`, deletes every temp file and removes the temp directory: on
normal completion the temp directory is gone and the data directory holds
exactly its previous entries plus the single new `<stem>.cbz`. -/
theorem convert_cleanup_frame (data_dir0 : List (List Char)) (stem : List Char)
    (page_total : ℕ) (limit : Option ℕ)
    (h : stem ++ ['.', 'z', 'i', 'p'] ∉ data_dir0) :
    (convert_fs data_dir0 stem page_total limit).tmp_dir_exists = false ∧
    (convert_fs data_dir0 stem page_total limit).tmp_dir = [] ∧
    (convert_fs data_dir0 stem page_total limit).data_dir =
      data_dir0 ++ [stem ++ ['.', 'c', 'b', 'z']] := by
  refine ⟨rfl, rfl, ?_⟩
  simp only [convert_fs, cleanup_tmp_fs, rename_zip_to_cbz_fs, write_zip_fs, write_pages_fs,
    List.map_append]
  congr 1
  · have hmap : ∀ a ∈ data_dir0,
        (if a = stem ++ ['.', 'z', 'i', 'p'] then stem ++ ['.', 'c', 'b', 'z'] else a) = a := by
      intro a ha
      rw [if_neg]
      intro hcon
      exact h (hcon ▸ ha)
    rw [List.map_congr_left hmap]
    exact List.map_id data_dir0
  · simp

theorem convert_cleanup_frame_witness :
    (['b'] ++ ['.', 'z', 'i', 'p'] ∉ ([] : List (List Char))) ∧
    ((convert_fs [] ['b'] 3 none).tmp_dir_exists = false ∧
      (convert_fs [] ['b'] 3 none).tmp_dir = [] ∧
      (convert_fs [] ['b'] 3 none).data_dir = [] ++ [['b'] ++ ['.', 'c', 'b', 'z']]) :=
  ⟨by simp, convert_cleanup_frame [] ['b'] 3 none (by simp)⟩

end Pdf2Cbz
